import Mathlib

set_option maxHeartbeats 1000000

set_option maxRecDepth 100000

/-- Characters of a Python string; text is modelled as a list of characters. -/
abbrev Str := List Char

/-- Attribute-list entries stored in the prototype tables: `[name, proto] + attrs`. -/
abbrev Entry := List Str

/-- Python `str.isspace` characters relevant to this input format. -/
def isWS (c : Char) : Bool := c == ' ' || c == '\t' || c == '\n' || c == '\r'

/-- Python `line.rstrip()`. -/
def rstrip (s : Str) : Str := (s.reverse.dropWhile isWS).reverse

/-- Python `line.split(None, 1)`: split on whitespace with at most one split. -/
def splitFirst (s : Str) : List Str :=
  let s1 := s.dropWhile isWS
  let tok := s1.takeWhile (fun c => !(isWS c))
  let rest := (s1.dropWhile (fun c => !(isWS c))).dropWhile isWS
  if tok.isEmpty then [] else if rest.isEmpty then [tok] else [tok, rest]

/-- Helper for `splitWS`, accumulating the current token reversed. -/
def splitWSAux : Str → Str → List Str
  | [], acc => if acc.isEmpty then [] else [acc.reverse]
  | c :: cs, acc =>
    if isWS c then
      if acc.isEmpty then splitWSAux cs [] else acc.reverse :: splitWSAux cs []
    else splitWSAux cs (c :: acc)

/-- Python `header.split()`: split on runs of whitespace, dropping empties. -/
def splitWS (s : Str) : List Str := splitWSAux s []

/-- Python `sep.join(parts)`. -/
def joinSep (sep : Str) : List Str → Str
  | [] => []
  | [x] => x
  | x :: y :: rest => x ++ sep ++ joinSep sep (y :: rest)

/-- Python `line.ljust(n)`: pad on the right with spaces up to width `n`. -/
def ljust (s : Str) (n : Nat) : Str := s ++ List.replicate (n - s.length) ' '

/-- Zero-pad a rendered number to width 2, as Python `f"{j:02}"`. -/
def pad2 (s : Str) : Str := if s.length < 2 then '0' :: s else s

/-- Python `f"{j:02}"` for an integer `j`. -/
def int2 (j : Int) : Str := pad2 (toString j).toList

/-- Insert a character into a sorted list of characters (by code point). -/
def insertSorted (c : Char) : List Char → List Char
  | [] => [c]
  | d :: ds => if c ≤ d then c :: d :: ds else d :: insertSorted c ds

/-- Python `sorted(key)` on the characters of a string. -/
def sortChars (s : List Char) : List Char := s.foldr insertSorted []

/-- Lexicographic strict order on strings by character code point. -/
def strLt : Str → Str → Bool
  | [], [] => false
  | [], _ :: _ => true
  | _ :: _, [] => false
  | a :: as, b :: bs => if a < b then true else if a = b then strLt as bs else false

/-- Lookup in an insertion-ordered association list (a Python dict). -/
def dfind {α : Type} [DecidableEq α] {β : Type} (k : α) : List (α × β) → Option β
  | [] => none
  | (k', v) :: rest => if k = k' then some v else dfind k rest

/-- Assignment `d[k] = v` in a Python dict: overwrite in place, else append. -/
def dinsert {α : Type} [DecidableEq α] {β : Type} (k : α) (v : β) :
    List (α × β) → List (α × β)
  | [] => [(k, v)]
  | (k', v') :: rest => if k = k' then (k', v) :: rest else (k', v') :: dinsert k v rest

/-- Python `d.values()` in insertion order. -/
def dvalues {α β : Type} (d : List (α × β)) : List β := d.map Prod.snd

/-- Python `defaultdict(list)` append: `d[k].append(v)`. -/
def gappend {α : Type} [DecidableEq α] {β : Type} (k : α) (v : β) :
    List (α × List β) → List (α × List β)
  | [] => [(k, [v])]
  | (k', vs) :: rest =>
    if k = k' then (k', vs ++ [v]) :: rest else (k', vs) :: gappend k v rest

/-- Keep the first occurrence of each element, given the set already seen. -/
def dedupAux {α : Type} [DecidableEq α] (seen : List α) : List α → List α
  | [] => []
  | x :: xs => if x ∈ seen then dedupAux seen xs else x :: dedupAux (x :: seen) xs

/-- Insert a keyed pair into a list sorted by key. -/
def insertByKey {β : Type} (p : Str × β) : List (Str × β) → List (Str × β)
  | [] => [p]
  | q :: qs => if strLt q.1 p.1 then q :: insertByKey p qs else p :: q :: qs

/-- Python `sorted(d.items())` for string keys. -/
def sortByKey {β : Type} (d : List (Str × β)) : List (Str × β) :=
  d.foldr insertByKey []

/-- Fatal exceptions the script can raise. Only `runtime` is caught by the
CLI wrapper; all of them terminate the run with failure status. -/
inductive Err where
  | runtime (msg : Str)
  | keyError (key : Str)
  | indexError
  | stopIteration
  | typeError
  | attributeError
deriving DecidableEq

/-- One unit of output written to the file: either raw text or one
`write_definition` call (prefix plus attribute lines). -/
inductive Chunk where
  | raw (s : Str)
  | defn (pfx : Str) (attrs : List Str)
deriving DecidableEq

/-- The padded character buffer and logical dimensions built by `parse_map`. -/
structure Grid where
  cols : Nat
  rows : Nat
  map_rows : List Str
deriving DecidableEq

/-- The `Layout` aggregate: region block, prototype tables, and the grid. -/
structure Layout where
  region : Option (List Str)
  location_prototypes : List (Str × Entry)
  portal_prototypes : List (Str × Entry)
  grid : Option Grid
deriving DecidableEq

def initLayout : Layout := ⟨none, [], [], none⟩

/-- The comment marker. -/
def hashStr : Str := ['#']

/-- The section marker. -/
def bangStr : Str := ['!', '!']

def msgRegionBlocks : Str := "region section must contain exactly one block".toList

def msgMapBlocks : Str := "map section must contain exactly one block".toList

def msgOddLine : Str := "length of map line must be odd: ".toList

def msgOddCount : Str := "map block must contain an odd number of lines".toList

def msgBadSection : Str := "invalid section ".toList

def secRegion : Str := "region".toList

def secMap : Str := "map".toList

def secLocation : Str := "location".toList

def secPortal : Str := "portal".toList

def strLocationProto : Str := "location".toList

/-- Append a finished block to a section, as `section.append(block)`. -/
def pushBlock (sec : Str × List (List Str)) (blk : List Str) : Str × List (List Str) :=
  (sec.1, sec.2 ++ [blk])

/-- The loop of `split_file`, carrying `sections`, the open `section` and the
open `block`. A `!!` marker pushes the open section without closing the open
block, and leaves the open block in place, exactly as the source does. -/
def splitGo : List Str → List (Str × List (List Str)) → Option (Str × List (List Str)) →
    Option (List Str) → Except Err (List (Str × List (List Str)))
  | [], secs, sec?, blk? =>
    match sec? with
    | none => .ok secs
    | some sec =>
      match blk? with
      | some blk => .ok (secs ++ [pushBlock sec blk])
      | none => .ok (secs ++ [sec])
  | line :: rest, secs, sec?, blk? =>
    let l := rstrip line
    if l.take 1 = hashStr then splitGo rest secs sec? blk?
    else if l.isEmpty then
      match blk? with
      | none => splitGo rest secs sec? none
      | some blk =>
        match sec? with
        | some sec => splitGo rest secs (some (pushBlock sec blk)) none
        | none => .error .attributeError
    else if l.take 2 = bangStr then
      let secs' := match sec? with
        | some sec => secs ++ [sec]
        | none => secs
      match splitFirst l with
      | _ :: name :: _ => splitGo rest secs' (some (name, [])) blk?
      | _ => .error .indexError
    else
      match sec? with
      | none => splitGo rest secs none blk?
      | some sec =>
        match blk? with
        | some blk => splitGo rest secs (some sec) (some (blk ++ [l]))
        | none => splitGo rest secs (some sec) (some [l])

/-- Model of `split_file`: tokenize the input lines into named sections of blocks. -/
def split_file (lines : List Str) : Except Err (List (Str × List (List Str))) :=
  splitGo lines [] none none

/-- Model of `Layout.parse_region`: the region section must contain exactly one block. -/
def parse_region (blocks : List (List Str)) : Except Err (List Str) :=
  match blocks with
  | [b] => .ok b
  | _ => .error (.runtime msgRegionBlocks)

/-- The line loop of `parse_map`: raise on an even-length line at an even
index, and fold the running maximum of `(len(line) + 1) // 2` into `cols`. -/
def scanLines : Nat → Nat → List Str → Except Err Nat
  | _, cols, [] => .ok cols
  | i, cols, line :: rest =>
    if i % 2 = 0 ∧ line.length % 2 = 0 then .error (.runtime (msgOddLine ++ line))
    else scanLines (i + 1) (max cols ((line.length + 1) / 2)) rest

def twoSpaces : Str := [' ', ' ']

/-- Model of `Layout.parse_map`: validate the single block, compute `cols`/`rows`, and
build the padded buffer with two blank rows and columns on every edge. -/
def parse_map (blocks : List (List Str)) : Except Err Grid :=
  match blocks with
  | [block] =>
    match scanLines 0 0 block with
    | .error e => .error e
    | .ok cols =>
      if block.length % 2 = 0 then .error (.runtime msgOddCount)
      else
        let empty_row := List.replicate (2 * cols + 3) ' '
        .ok { cols := cols
            , rows := (block.length + 1) / 2
            , map_rows := [empty_row, empty_row] ++
                block.map (fun line => twoSpaces ++ ljust line (2 * cols + 1)) ++
                [empty_row, empty_row] }
  | _ => .error (.runtime msgMapBlocks)

/-- Model of `Layout.parse_locations`: header `<letter> <name> [<proto>]`; the base
prototype is `parts[2]` exactly when there are three tokens, else the generic
`location`; stores `[name, proto] + attrs` under the letter token, last wins. -/
def parse_locations (lp : List (Str × Entry)) : List (List Str) → Except Err (List (Str × Entry))
  | [] => .ok lp
  | [] :: _ => .error .indexError
  | (header :: attrs) :: bs =>
    match splitWS header with
    | key :: name :: rest =>
      let proto := match rest with
        | [p] => p
        | _ => strLocationProto
      parse_locations (dinsert key (name :: proto :: attrs) lp) bs
    | _ => .error .indexError

/-- Index of the first token whose length is not 2, as the source's
`next(i for i, item in enumerate(parts) if len(item) != 2)`. -/
def num_keys_aux : Nat → List Str → Option Nat
  | _, [] => none
  | i, t :: ts => if t.length ≠ 2 then some i else num_keys_aux (i + 1) ts

/-- Model of `Layout.parse_portals`: the header holds two-character keys followed by the
name and an optional base prototype (default the empty string); every key is
normalized by sorting its characters before storage, last wins. -/
def parse_portals (pp : List (Str × Entry)) : List (List Str) → Except Err (List (Str × Entry))
  | [] => .ok pp
  | [] :: _ => .error .indexError
  | (header :: attrs) :: bs =>
    let parts := splitWS header
    match num_keys_aux 0 parts with
    | none => .error .stopIteration
    | some nk =>
      let name := parts.getD nk []
      let proto := if nk + 1 < parts.length then parts.getD (nk + 1) [] else []
      parse_portals
        ((parts.take nk).foldl
          (fun d key => dinsert (sortChars key) (name :: proto :: attrs) d) pp) bs

/-- Dispatch one section to its parser, as the body of `Layout.parse`. -/
def applySection (l : Layout) (sec : Str × List (List Str)) : Except Err Layout :=
  if sec.1 = secRegion then
    match parse_region sec.2 with
    | .error e => .error e
    | .ok r => .ok { l with region := some r }
  else if sec.1 = secMap then
    match parse_map sec.2 with
    | .error e => .error e
    | .ok g => .ok { l with grid := some g }
  else if sec.1 = secLocation then
    match parse_locations l.location_prototypes sec.2 with
    | .error e => .error e
    | .ok d => .ok { l with location_prototypes := d }
  else if sec.1 = secPortal then
    match parse_portals l.portal_prototypes sec.2 with
    | .error e => .error e
    | .ok d => .ok { l with portal_prototypes := d }
  else .error (.runtime (msgBadSection ++ sec.1))

/-- Fold all sections through `applySection`, aborting at the first error. -/
def parseSections (l : Layout) : List (Str × List (List Str)) → Except Err Layout
  | [] => .ok l
  | s :: ss =>
    match applySection l s with
    | .error e => .error e
    | .ok l' => parseSections l' ss

/-- Model of `Layout.parse` applied to the whole input: split, then fold sections. -/
def parseAll (lines : List Str) : Except Err Layout :=
  match split_file lines with
  | .error e => .error e
  | .ok secs => parseSections initLayout secs

/-- First element of a stored prototype entry: its instance name. -/
def entryName (e : Entry) : Str := e.headD []

/-- Model of `Layout.col_label`: `A`-`Z` for columns 0-25, then `a`-`z`. -/
def col_label (i : Int) : Char :=
  if i < 26 then Char.ofNat (65 + i).toNat else Char.ofNat (97 + (i - 26)).toNat

/-- Model of `Layout.location_suffix`: column letter followed by the zero-padded row. -/
def location_suffix (i j : Int) : Str := col_label i :: int2 j

/-- Model of `Layout.location_label`: prototype instance name, underscore, suffix.
The dictionary lookup raises `KeyError` when the letter has no prototype. -/
def location_label (l : Layout) (letter : Char) (i j : Int) : Except Err Str :=
  match dfind [letter] l.location_prototypes with
  | none => .error (.keyError [letter])
  | some e => .ok (entryName e ++ '_' :: location_suffix i j)

def dirNW : Str := "northwest".toList

def dirW : Str := "west".toList

def dirSW : Str := "southwest".toList

def dirN : Str := "north".toList

def dirS : Str := "south".toList

def dirNE : Str := "northeast".toList

def dirE : Str := "east".toList

def dirSE : Str := "southeast".toList

/-- Model of `Layout.exit_directions`: the fixed `(dx, dy, name)` probe order. -/
def exit_directions : List (Int × Int × Str) :=
  [(-1, -1, dirNW), (-1, 0, dirW), (-1, 1, dirSW), (0, -1, dirN),
   (0, 1, dirS), (1, -1, dirNE), (1, 0, dirE), (1, 1, dirSE)]

/-- Read `rows[y][x]` in the padded buffer; blank off the buffer (the source
never indexes outside it for grid cells, see the bounds theorem below). -/
def charAt (rows : List Str) (y x : Int) : Char :=
  if 0 ≤ y ∧ 0 ≤ x then (rows.getD y.toNat []).getD x.toNat ' ' else ' '

/-- Version of `charAt` for already non-negative coordinates. -/
def charAtN (rows : List Str) (y x : Nat) : Char := (rows.getD y []).getD x ' '

/-- One iteration of the `get_exits` loop for direction `d`: probe the
connector at `(x+dx, y+dy)`; when non-blank, read the destination letter at
`(x+2dx, y+2dy)`, build its label, and look up the sorted letter-pair key. -/
def exitFor (l : Layout) (g : Grid) (letter : Char) (i j : Nat) (d : Int × Int × Str) :
    Except Err (Option (Str × Str × Str)) :=
  let dx := d.1
  let dy := d.2.1
  let x : Int := 2 + (i : Int) * 2
  let y : Int := 2 + (j : Int) * 2
  if dx ≠ 0 ∨ dy ≠ 0 then
    let link := charAt g.map_rows (y + dy) (x + dx)
    if link ≠ ' ' then
      let dest_letter := charAt g.map_rows (y + dy * 2) (x + dx * 2)
      match location_label l dest_letter ((i : Int) + dx) ((j : Int) + dy) with
      | .error e => .error e
      | .ok dest =>
        let portal_key := sortChars [letter, dest_letter]
        match dfind portal_key l.portal_prototypes with
        | none => .error (.keyError portal_key)
        | some pp => .ok (some (entryName pp, d.2.2, dest))
    else .ok none
  else .ok none

/-- The loop of `get_exits` over a list of directions, in order. -/
def exitsGo (l : Layout) (g : Grid) (letter : Char) (i j : Nat) :
    List (Int × Int × Str) → Except Err (List (Str × Str × Str))
  | [] => .ok []
  | d :: ds =>
    match exitFor l g letter i j d with
    | .error e => .error e
    | .ok none => exitsGo l g letter i j ds
    | .ok (some ex) =>
      match exitsGo l g letter i j ds with
      | .error e => .error e
      | .ok exs => .ok (ex :: exs)

/-- Model of `Layout.get_exits`: resolved exits of the cell at logical `(i, j)`. -/
def get_exits (l : Layout) (g : Grid) (letter : Char) (i j : Nat) :
    Except Err (List (Str × Str × Str)) :=
  exitsGo l g letter i j exit_directions

def apos : Char := Char.ofNat 39

def strArrowSep : Str := " -> ".toList

def strToSep : Str := " to ".toList

def commaSp : Str := ", ".toList

def strExitsOpen : Str := "exits = [".toList

/-- Python `f"{portal} -> '{dir_name} to {dest}"`. -/
def fmtExit (e : Str × Str × Str) : Str :=
  e.1 ++ strArrowSep ++ apos :: e.2.1 ++ strToSep ++ e.2.2

/-- The unwrapped `exits = [...]` line of `format_exits`. -/
def exitsLine (exits : List (Str × Str × Str)) : Str :=
  strExitsOpen ++ joinSep commaSp (exits.map fmtExit) ++ [']']

/-- Index of the last comma in a string, if any. -/
def lastCommaIdx : Str → Option Nat
  | [] => none
  | c :: cs =>
    match lastCommaIdx cs with
    | some p => some (p + 1)
    | none => if c = ',' then some 0 else none

def spaces10 : Str := List.replicate 10 ' '

/-- The `while len(exits) > 90` wrapping loop of `format_exits`, with fuel.
Each iteration removes the comma it splits at, so the comma count of the
string strictly decreases and `count + 1` fuel always suffices. -/
def wrapAux : Nat → Str → List Str
  | 0, s => [s]
  | fuel + 1, s =>
    if s.length > 90 then
      match lastCommaIdx (s.take 90) with
      | none => [s]
      | some p => s.take (p + 1) :: wrapAux fuel (spaces10 ++ s.drop (p + 1))
    else [s]

/-- The wrapping loop at its always-sufficient fuel. -/
def wrap (s : Str) : List Str := wrapAux (s.count ',' + 1) s

def newline : Str := ['\n']

/-- Model of `Layout.format_exits`: join, wrap at commas before column 90, indent
continuations by ten spaces, and join the lines with newlines. -/
def format_exits (exits : List (Str × Str × Str)) : Str :=
  joinSep newline (wrap (exitsLine exits))

def strOpenBrace : Str := " \x7b\n".toList

def strCloseBrace : Str := "\x7d\n\n".toList

/-- Render one chunk to text; a `defn` chunk is one `write_definition` call,
each attribute line indented two spaces. -/
def renderChunk : Chunk → Str
  | .raw s => s
  | .defn pfx attrs =>
    pfx ++ strOpenBrace ++ (attrs.map (fun a => twoSpaces ++ a ++ newline)).flatten ++ strCloseBrace

/-- Concatenate the rendered chunks: the text written to the output file. -/
def render (cs : List Chunk) : Str := (cs.map renderChunk).flatten

def strDefRegion : Str := "def region ".toList

def strDefEntity : Str := "def entity ".toList

def strDefLocation : Str := "def location ".toList

def strColonSp : Str := ": ".toList

/-- Model of `Layout.write_region`: unsupported when no region was parsed. -/
def write_region (region : Option (List Str)) : Except Err Chunk :=
  match region with
  | none => .error .typeError
  | some [] => .error .typeError
  | some (name :: attrs) => .ok (.defn (strDefRegion ++ name) attrs)

def strCommentOpen : Str := "/*\n".toList

def strCommentClose : Str := "*/\n\n".toList

def fourSpaces : Str := List.replicate 4 ' '

def oneSpace : Str := [' ']

def strEqSep : Str := " = ".toList

/-- Model of `Layout.write_map`: the diagram comment with column letters, row numbers
and the sorted legend of location prototypes. -/
def write_map (l : Layout) : Except Err Chunk :=
  match l.grid with
  | none => .error .attributeError
  | some g =>
    let colHeader := fourSpaces ++
      joinSep oneSpace ((List.range g.cols).map (fun i => [col_label (Int.ofNat i)])) ++ newline
    let mid := ((g.map_rows.drop 1).dropLast.enum.map (fun p =>
      (if p.1 % 2 = 1 then int2 (Int.ofNat (p.1 / 2)) else twoSpaces) ++
        rstrip p.2 ++ newline)).flatten
    let legend := ((sortByKey l.location_prototypes).map (fun p =>
      twoSpaces ++ p.1 ++ strEqSep ++ entryName p.2 ++ newline)).flatten
    .ok (.raw (strCommentOpen ++ colHeader ++ mid ++ legend ++ strCommentClose))

/-- Model of `Layout.write_prototypes`: one `def entity <name>: <proto>` per entry. -/
def write_prototypes (blocks : List Entry) : List Chunk :=
  blocks.map (fun b =>
    match b with
    | name :: proto :: attrs => .defn (strDefEntity ++ name ++ strColonSp ++ proto) attrs
    | _ => .raw [])

/-- The `unique` dict of `write_portal_prototypes`: re-key every stored entry
by its instance name, in insertion order, assignment overwriting in place. -/
def uniqueOf (vals : List Entry) : List (Str × Entry) :=
  vals.foldl (fun d e => dinsert (entryName e) e d) []

def strPortalHdr : Str := "//# portal prototypes\n\n".toList

/-- Model of `Layout.write_portal_prototypes`: deduplicate by name, then emit. -/
def write_portal_prototypes (pp : List (Str × Entry)) : List Chunk :=
  .raw strPortalHdr :: write_prototypes (dvalues (uniqueOf (dvalues pp)))

/-- The row-major scan of `write_locations`: the occupied cells, in order. -/
def occupiedCells (g : Grid) : List (Char × Nat × Nat) :=
  (List.range g.rows).flatMap (fun j =>
    (List.range g.cols).filterMap (fun i =>
      let letter := charAtN g.map_rows (2 + 2 * j) (2 + 2 * i)
      if letter ≠ ' ' ∧ letter ≠ '.' then some (letter, i, j) else none))

/-- The `groups` defaultdict of `write_locations`. -/
def buildGroups (g : Grid) : List (Char × List (Nat × Nat)) :=
  (occupiedCells g).foldl (fun d c => gappend c.1 c.2 d) []

def strGroupHdr : Str := "//# ".toList

/-- Model of `Layout.write_location`: one location-instance definition with its
formatted exits line as the single attribute. -/
def write_location (l : Layout) (g : Grid) (letter : Char) (i j : Nat) :
    Except Err Chunk :=
  match get_exits l g letter i j with
  | .error e => .error e
  | .ok exits =>
    match location_label l letter (Int.ofNat i) (Int.ofNat j) with
    | .error e => .error e
    | .ok label =>
      match dfind [letter] l.location_prototypes with
      | none => .error (.keyError [letter])
      | some e =>
        .ok (.defn (strDefLocation ++ label ++ strColonSp ++ entryName e)
          [format_exits exits])

/-- Emit the instances of one letter group, stopping at the first error and
keeping everything written before it. -/
def writeLocCells (l : Layout) (g : Grid) (letter : Char) :
    List (Nat × Nat) → List Chunk × Option Err
  | [] => ([], none)
  | ij :: ijs =>
    match write_location l g letter ij.1 ij.2 with
    | .error e => ([], some e)
    | .ok ch =>
      let r := writeLocCells l g letter ijs
      (ch :: r.1, r.2)

/-- Emit all letter groups: group comment, prototype definition, then one
instance definition per cell of the group. -/
def writeLocGroups (l : Layout) (g : Grid) :
    List (Char × List (Nat × Nat)) → List Chunk × Option Err
  | [] => ([], none)
  | (letter, ijs) :: rest =>
    match dfind [letter] l.location_prototypes with
    | none => ([], some (.keyError [letter]))
    | some e =>
      let hd := Chunk.raw (strGroupHdr ++ entryName e ++ newline ++ newline) ::
        write_prototypes [e]
      let r := writeLocCells l g letter ijs
      match r.2 with
      | some err => (hd ++ r.1, some err)
      | none =>
        let r2 := writeLocGroups l g rest
        (hd ++ r.1 ++ r2.1, r2.2)

/-- Model of `Layout.write_locations`: group the occupied cells by letter, then emit. -/
def write_locations (l : Layout) : List Chunk × Option Err :=
  match l.grid with
  | none => ([], some .attributeError)
  | some g => writeLocGroups l g (buildGroups g)

/-- Model of `Layout.save`: region, map comment, portal prototypes, locations, in that
order; on an error the chunks already written are kept. -/
def save (l : Layout) : List Chunk × Option Err :=
  match write_region l.region with
  | .error e => ([], some e)
  | .ok c1 =>
    match write_map l with
    | .error e => ([c1], some e)
    | .ok c2 =>
      let cs3 := write_portal_prototypes l.portal_prototypes
      let r := write_locations l
      ([c1, c2] ++ cs3 ++ r.1, r.2)

/-- The `__main__` driver: parse, and only when parsing succeeded open the
output file and save into it. The first component is the content of the
output file when it was created at all; the second is success. -/
def runMain (lines : List Str) : Option Str × Bool :=
  match parseAll lines with
  | .error _ => (none, false)
  | .ok l =>
    let r := save l
    (some (render r.1), r.2.isNone)

/-- A chunk is a location-instance definition when its prefix is the
`def location ` form used only by `write_location`. -/
def isLocDef : Chunk → Bool
  | .defn pfx _ => strDefLocation.isPrefixOf pfx
  | _ => false

/-- Number of location-instance definitions among the chunks. -/
def countLocDefs (cs : List Chunk) : Nat := cs.countP isLocDef

/-- Connector character probed by the resolver for direction `(dx, dy)`. -/
def connectorAt (g : Grid) (i j : Nat) (dx dy : Int) : Char :=
  charAt g.map_rows (2 + (j : Int) * 2 + dy) (2 + (i : Int) * 2 + dx)

/-- Destination letter read by the resolver for direction `(dx, dy)`. -/
def destLetterAt (g : Grid) (i j : Nat) (dx dy : Int) : Char :=
  charAt g.map_rows (2 + (j : Int) * 2 + dy * 2) (2 + (i : Int) * 2 + dx * 2)

/-- Portal name under the key formed by sorting the two letters. -/
def portalNameAt (l : Layout) (a b : Char) : Str :=
  entryName ((dfind (sortChars [a, b]) l.portal_prototypes).getD [])

/-- Destination label generated from the destination letter at `(i+dx, j+dy)`. -/
def destLabelAt (l : Layout) (dest : Char) (i j : Nat) (dx dy : Int) : Str :=
  entryName ((dfind [dest] l.location_prototypes).getD []) ++
    '_' :: location_suffix ((i : Int) + dx) ((j : Int) + dy)

/-- The connection the claim describes for one direction: present exactly when
the connector is non-blank, with portal name, direction name and label. -/
def exitSpec (l : Layout) (g : Grid) (letter : Char) (i j : Nat)
    (d : Int × Int × Str) : Option (Str × Str × Str) :=
  if connectorAt g i j d.1 d.2.1 ≠ ' ' then
    some (portalNameAt l letter (destLetterAt g i j d.1 d.2.1), d.2.2,
      destLabelAt l (destLetterAt g i j d.1 d.2.1) i j d.1 d.2.1)
  else none

/-- Input whose only section marker carries an unknown handling of blocks:
a lone map section with no block, a parse-time fatal error. -/
def c2ParseErrLine : Str := "!! map".toList

def c2ParseErrInput : List Str := [c2ParseErrLine]

/-- Input with a connector between `A` and `B` but no `AB` portal prototype:
parsing succeeds and the reference error only fires during emission. -/
def c2Input : List Str :=
  ["!! region".toList, "testR".toList, [], "!! map".toList, "A-B".toList, [],
   "!! location".toList, "A aproto".toList, [], "B bproto".toList, [],
   "!! portal".toList, "AA portalA".toList, []]

/-- Map block whose middle (connector) line has even length. -/
def c3Block : List Str := [['F'], ['a', 'b'], ['F']]

def c3Empty : Str := List.replicate 5 ' '

def c3Row1 : Str := "  F  ".toList

def c3Row2 : Str := "  ab ".toList

/-- The grid the map parser builds from `c3Block`. -/
def c3Grid : Grid := ⟨1, 2, [c3Empty, c3Empty, c3Row1, c3Row2, c3Row1, c3Empty, c3Empty]⟩

def c4Name : Str := "pAx".toList

def c4Attr1 : Str := "a1".toList

def c4Attr2 : Str := "a2".toList

def c4Header1 : Str := "FF pAx".toList

def c4Header2 : Str := "CF pAx".toList

/-- Two portal blocks with distinct normalized keys sharing one name. -/
def c4Blocks : List (List Str) := [[c4Header1, c4Attr1], [c4Header2, c4Attr2]]

def c4KeyFF : Str := ['F', 'F']

def c4KeyCF : Str := ['C', 'F']

def c4Entry1 : Entry := [c4Name, [], c4Attr1]

def c4Entry2 : Entry := [c4Name, [], c4Attr2]

/-- The portal-prototype table `parse_portals` builds from `c4Blocks`. -/
def c4Table : List (Str × Entry) := [(c4KeyFF, c4Entry1), (c4KeyCF, c4Entry2)]

/-- Python `or` on options, for describing dict folds. -/
def oor {α : Type} : Option α → Option α → Option α
  | some a, _ => some a
  | none, b => b

def c5Portal : Str := "forestPortal".toList

def c5L1 : Str := "forest_A00".toList

def c5L2 : Str := "forest_B01".toList

def c5L3 : Str := "forest_C02".toList

def c5L4 : Str := "forest_D03".toList

def c5L5 : Str := "forest_E04".toList

/-- An exit list whose formatted line is 205 characters long. -/
def c5Exits : List (Str × Str × Str) :=
  [(c5Portal, dirNW, c5L1), (c5Portal, dirW, c5L2), (c5Portal, dirSW, c5L3),
   (c5Portal, dirN, c5L4), (c5Portal, dirS, c5L5)]

def c6Empty : Str := List.replicate 5 ' '

def c6Row : Str := "  A  ".toList

def c6Grid : Grid := ⟨1, 1, [c6Empty, c6Empty, c6Row, c6Empty, c6Empty]⟩

def c6ProtoName : Str := "aproto".toList

def c6Entry : Entry := [c6ProtoName, strLocationProto]

/-- A one-cell layout on which emission succeeds. -/
def c6Layout : Layout := ⟨none, [(['A'], c6Entry)], [], some c6Grid⟩

def c7Header1 : Str := "FC alpha".toList

def c7Header2 : Str := "CF bet".toList

def c7Name1 : Str := "alpha".toList

def c7Name2 : Str := "bet".toList

def c7Key : Str := ['C', 'F']

/-- The table after declaring the pair as `FC` and then as `CF`. -/
def c7Res : List (Str × Entry) := [(c7Key, [c7Name2, []])]

def c1Empty : Str := List.replicate 7 ' '

def c1Row : Str := "  A-A  ".toList

def c1Grid : Grid := ⟨2, 1, [c1Empty, c1Empty, c1Row, c1Empty, c1Empty]⟩

def c1PortalName : Str := "apPortal".toList

def c1LocName : Str := "aproto".toList

def c1LocEntry : Entry := [c1LocName, strLocationProto]

/-- A two-cell layout with one east-west connector and its portal declared. -/
def c1Layout : Layout :=
  ⟨none, [(['A'], c1LocEntry)], [(['A', 'A'], [c1PortalName, []])], some c1Grid⟩

def c1DestLabel : Str := "aproto_B00".toList

def c9Block : List Str := [['A', '-', 'A']]

def c9Empty : Str := List.replicate 7 ' '

def c9Row : Str := "  A-A  ".toList

def c9Grid : Grid := ⟨2, 1, [c9Empty, c9Empty, c9Row, c9Empty, c9Empty]⟩

def c10PHeader : Str := "AB portalX".toList

def c10PName : Str := "portalX".toList

def c10PKey : Str := ['A', 'B']

def c10LHeader : Str := "A locX".toList

def c10LName : Str := "locX".toList

def c10LKey : Str := ['A']

def c10PRes : List (Str × Entry) := [(c10PKey, [c10PName, []])]

def c10LRes : List (Str × Entry) := [(c10LKey, [c10LName, strLocationProto])]

/-- C8: compilation is deterministic — the full pipeline (parse then save) run
twice on the same input text yields byte-identical output text. -/
theorem c8_deterministic (s t : List Str) (h : s = t) : runMain s = runMain t := by
  rw [h]

theorem c8_deterministic_witness : runMain c2Input = runMain c2Input :=
  c8_deterministic c2Input c2Input rfl

/-- C2 (amended): a fatal error raised during parsing terminates the run with
failure status before the output file is created, so nothing is written. -/
theorem c2_parse_error_no_output (input : List Str) (e : Err)
    (h : parseAll input = .error e) : runMain input = (none, false) := by
  unfold runMain
  rw [h]

theorem c2_parse_error_no_output_witness : runMain c2ParseErrInput = (none, false) :=
  c2_parse_error_no_output c2ParseErrInput (.runtime msgMapBlocks) rfl

/-- C2 counterexample: on the reference-error input the run fails, yet the
output file exists and already contains the region definition. -/
theorem c2_counterexample :
    (runMain c2Input).2 = false ∧ (runMain c2Input).1.isSome = true ∧
      ((runMain c2Input).1.getD []).take 11 = strDefRegion :=
  ⟨rfl, rfl, rfl⟩

/-- When every even-indexed line has odd length, the scan succeeds and returns
the running maximum of the per-line column counts. -/
theorem scanLines_ok (bl : List Str) : ∀ (i acc : Nat),
    (∀ k, k < bl.length → (i + k) % 2 = 0 → (bl.getD k []).length % 2 = 1) →
    scanLines i acc bl = .ok (bl.foldl (fun m l => max m ((l.length + 1) / 2)) acc) := by
  induction bl with
  | nil => intro i acc _; rfl
  | cons hd tl ih =>
    intro i acc h
    have h0 : i % 2 = 0 → hd.length % 2 = 1 := by
      intro hi
      have := h 0 (by simp) (by omega)
      simpa using this
    have hcond : ¬(i % 2 = 0 ∧ hd.length % 2 = 0) := by
      rintro ⟨hi, hl⟩
      have := h0 hi
      omega
    simp only [scanLines, if_neg hcond, List.foldl_cons]
    exact ih (i + 1) (max acc ((hd.length + 1) / 2)) (fun k hk hke => by
      have := h (k + 1) (by simpa using Nat.succ_lt_succ hk) (by omega)
      simpa using this)

/-- When some even-indexed line has even length, the scan raises. -/
theorem scanLines_err (bl : List Str) : ∀ (i acc : Nat),
    (∃ k, k < bl.length ∧ (i + k) % 2 = 0 ∧ (bl.getD k []).length % 2 = 0) →
    ∃ e, scanLines i acc bl = .error e := by
  induction bl with
  | nil => rintro i acc ⟨k, hk, -, -⟩; simp at hk
  | cons hd tl ih =>
    rintro i acc ⟨k, hk, hke, hkl⟩
    by_cases hcond : i % 2 = 0 ∧ hd.length % 2 = 0
    · exact ⟨.runtime (msgOddLine ++ hd), by simp [scanLines, if_pos hcond]⟩
    · have hkpos : k ≠ 0 := by
        rintro rfl
        exact hcond ⟨by omega, by simpa using hkl⟩
      obtain ⟨k', rfl⟩ := Nat.exists_eq_succ_of_ne_zero hkpos
      obtain ⟨e, he⟩ := ih (i + 1) (max acc ((hd.length + 1) / 2))
        ⟨k', by simpa using Nat.lt_of_succ_lt_succ hk, by omega, by simpa using hkl⟩
      exact ⟨e, by simp [scanLines, if_neg hcond, he]⟩

/-- C3 counterexample: the connector line `ab` of this block has even length,
yet the map parser succeeds and constructs the padded grid. -/
theorem c3_counterexample :
    parse_map [c3Block] = .ok c3Grid ∧ (c3Block.getD 1 []).length % 2 = 0 :=
  ⟨rfl, rfl⟩

/-- C3 (amended): the parser raises a fatal error exactly when the block has
an even number of lines or some even-indexed (location) line has even length;
odd-indexed (connector) lines may have any length. On success, `cols` is the
maximum over all lines of `ceil(len/2)` and `rows` is `ceil(count/2)`. -/
theorem c3_amended (block : List Str) :
    match parse_map [block] with
    | .ok g => block.length % 2 = 1 ∧
        (∀ k, k < block.length → k % 2 = 0 → (block.getD k []).length % 2 = 1) ∧
        g.cols = block.foldl (fun m l => max m ((l.length + 1) / 2)) 0 ∧
        g.rows = (block.length + 1) / 2
    | .error _ => block.length % 2 = 0 ∨
        ∃ k, k < block.length ∧ k % 2 = 0 ∧ (block.getD k []).length % 2 = 0 := by
  by_cases hall : ∀ k, k < block.length → k % 2 = 0 → (block.getD k []).length % 2 = 1
  · have hs := scanLines_ok block 0 0 (fun k hk hke => hall k hk (by omega))
    by_cases hev : block.length % 2 = 0
    · have hpm : parse_map [block] = .error (.runtime msgOddCount) := by
        simp [parse_map, hs, hev]
      rw [hpm]
      exact Or.inl hev
    · have hpm : parse_map [block] = .ok
          { cols := block.foldl (fun m l => max m ((l.length + 1) / 2)) 0
          , rows := (block.length + 1) / 2
          , map_rows := [List.replicate (2 * (block.foldl (fun m l => max m ((l.length + 1) / 2)) 0) + 3) ' ',
              List.replicate (2 * (block.foldl (fun m l => max m ((l.length + 1) / 2)) 0) + 3) ' '] ++
              block.map (fun line => twoSpaces ++
                ljust line (2 * (block.foldl (fun m l => max m ((l.length + 1) / 2)) 0) + 1)) ++
              [List.replicate (2 * (block.foldl (fun m l => max m ((l.length + 1) / 2)) 0) + 3) ' ',
               List.replicate (2 * (block.foldl (fun m l => max m ((l.length + 1) / 2)) 0) + 3) ' '] } := by
        simp [parse_map, hs, hev]
      rw [hpm]
      exact ⟨by omega, hall, rfl, rfl⟩
  · push_neg at hall
    obtain ⟨k, hk, hk2, hkodd⟩ := hall
    obtain ⟨e, he⟩ := scanLines_err block 0 0 ⟨k, hk, by omega, by omega⟩
    have hpm : parse_map [block] = .error e := by
      simp [parse_map, he]
    rw [hpm]
    exact Or.inr ⟨k, hk, hk2, by omega⟩

/-- Sorting a two-character key is insensitive to the order of its characters. -/
theorem sortChars_pair_comm (a b : Char) : sortChars [a, b] = sortChars [b, a] := by
  simp only [sortChars, List.foldr, insertSorted]
  rcases le_total a b with hab | hba
  · by_cases hba2 : b ≤ a
    · have hEq : a = b := le_antisymm hab hba2
      subst hEq
      simp
    · simp [hab, hba2]
  · by_cases hab2 : a ≤ b
    · have hEq : a = b := le_antisymm hab2 hba
      subst hEq
      simp
    · simp [hba, hab2]

/-- Looking a key up after an assignment. -/
theorem dfind_dinsert {α β : Type} [DecidableEq α] (k k' : α) (v : β)
    (d : List (α × β)) :
    dfind k (dinsert k' v d) = if k = k' then some v else dfind k d := by
  induction d with
  | nil => by_cases h : k = k' <;> simp [dinsert, dfind, h]
  | cons p rest ih =>
    obtain ⟨pk, pv⟩ := p
    by_cases h1 : k' = pk
    · by_cases h2 : k = pk <;> simp [dinsert, dfind, h1, h2]
    · by_cases h2 : k = pk
      · have h3 : ¬ k = k' := by
          rw [h2]
          exact fun h => h1 h.symm
        have h4 : ¬ pk = k' := fun h => h1 h.symm
        simp [dinsert, dfind, h1, h2, h3, h4]
      · simp [dinsert, dfind, h1, h2, ih]

/-- One portal block whose header is a single two-character key and a name
stores one normalized entry with the empty base prototype. -/
theorem parse_portals_single (pp : List (Str × Entry)) (header : Str)
    (attrs : List Str) (k n : Str) (bs : List (List Str))
    (hs : splitWS header = [k, n]) (hk : k.length = 2) (hn : n.length ≠ 2) :
    parse_portals pp ((header :: attrs) :: bs) =
      parse_portals (dinsert (sortChars k) (n :: [] :: attrs) pp) bs := by
  simp [parse_portals, hs, num_keys_aux, hk, hn]

/-- C7: portal keys are normalized by sorting their two characters, so a pair
declared in either order stores and resolves to the same table entry, and on
duplicate normalized keys the later entry wins. -/
theorem c7_portal_key_normalization (pp pp' : List (Str × Entry)) (a b : Char)
    (n1 n2 h1 h2 : Str) (attrs1 attrs2 : List Str)
    (hs1 : splitWS h1 = [[a, b], n1]) (hs2 : splitWS h2 = [[b, a], n2])
    (hn1 : n1.length ≠ 2) (hn2 : n2.length ≠ 2)
    (hp : parse_portals pp [h1 :: attrs1, h2 :: attrs2] = .ok pp') :
    sortChars [a, b] = sortChars [b, a] ∧
    dfind (sortChars [a, b]) pp' = some (n2 :: [] :: attrs2) ∧
    dfind (sortChars [b, a]) pp' = some (n2 :: [] :: attrs2) := by
  have hcomm := sortChars_pair_comm a b
  rw [parse_portals_single pp h1 attrs1 [a, b] n1 _ hs1 rfl hn1,
      parse_portals_single _ h2 attrs2 [b, a] n2 _ hs2 rfl hn2] at hp
  simp only [parse_portals, Except.ok.injEq] at hp
  subst hp
  refine ⟨hcomm, ?_, ?_⟩
  · rw [hcomm, dfind_dinsert]
    simp
  · rw [dfind_dinsert]
    simp

theorem c7_witness :
    sortChars ['F', 'C'] = sortChars ['C', 'F'] ∧
    dfind (sortChars ['F', 'C']) c7Res = some [c7Name2, []] ∧
    dfind (sortChars ['C', 'F']) c7Res = some [c7Name2, []] :=
  c7_portal_key_normalization [] c7Res 'F' 'C' c7Name1 c7Name2 c7Header1 c7Header2
    [] [] rfl rfl (by decide) (by decide) rfl

/-- C10: a portal header without a base-prototype name stores the empty string
as the base, so the emitted prefix is `def entity <name>: ` with nothing after
the colon, while a location header without one defaults to `location`. -/
theorem c10_portal_base_default (pp pp' lp lp' : List (Str × Entry))
    (ph lh k n lk ln : Str) (pattrs lattrs : List Str)
    (hps : splitWS ph = [k, n]) (hk : k.length = 2) (hn : n.length ≠ 2)
    (hls : splitWS lh = [lk, ln])
    (hp : parse_portals pp [ph :: pattrs] = .ok pp')
    (hl : parse_locations lp [lh :: lattrs] = .ok lp') :
    dfind (sortChars k) pp' = some (n :: [] :: pattrs) ∧
    write_prototypes [n :: [] :: pattrs] =
      [.defn (strDefEntity ++ n ++ strColonSp) pattrs] ∧
    dfind lk lp' = some (ln :: strLocationProto :: lattrs) := by
  rw [parse_portals_single pp ph pattrs k n _ hps hk hn] at hp
  simp only [parse_portals, Except.ok.injEq] at hp
  subst hp
  simp only [parse_locations, hls, Except.ok.injEq] at hl
  subst hl
  refine ⟨?_, ?_, ?_⟩
  · rw [dfind_dinsert]
    simp
  · simp [write_prototypes]
  · rw [dfind_dinsert]
    simp

theorem c10_witness :
    dfind (sortChars c10PKey) c10PRes = some [c10PName, []] ∧
    write_prototypes [[c10PName, []]] =
      [.defn (strDefEntity ++ c10PName ++ strColonSp) []] ∧
    dfind c10LKey c10LRes = some [c10LName, strLocationProto] :=
  c10_portal_base_default [] c10PRes [] c10LRes c10PHeader c10LHeader c10PKey
    c10PName c10LKey c10LName [] [] rfl rfl (by decide) rfl rfl rfl

/-- Assignment either keeps the key list unchanged or appends the new key. -/
theorem dinsert_keys {α β : Type} [DecidableEq α] (k : α) (v : β)
    (d : List (α × β)) :
    (dinsert k v d).map Prod.fst =
      if k ∈ d.map Prod.fst then d.map Prod.fst else d.map Prod.fst ++ [k] := by
  induction d with
  | nil => simp [dinsert]
  | cons p rest ih =>
    obtain ⟨pk, pv⟩ := p
    by_cases h : k = pk
    · simp [dinsert, h]
    · by_cases hm : k ∈ rest.map Prod.fst <;> simp [dinsert, h, ih, hm]

/-- First-occurrence deduplication only depends on the membership of `seen`. -/
theorem dedupAux_congr {α : Type} [DecidableEq α] (xs : List α) :
    ∀ (s1 s2 : List α), (∀ a, a ∈ s1 ↔ a ∈ s2) → dedupAux s1 xs = dedupAux s2 xs := by
  induction xs with
  | nil => intro s1 s2 _; rfl
  | cons x xs ih =>
    intro s1 s2 h
    by_cases hx : x ∈ s1
    · simp [dedupAux, hx, (h x).mp hx, ih s1 s2 h]
    · have hx2 : ¬ x ∈ s2 := fun hh => hx ((h x).mpr hh)
      simp only [dedupAux, if_neg hx, if_neg hx2]
      rw [ih (x :: s1) (x :: s2) (fun a => by simp [h a])]

/-- Folding assignments keyed by entry name: the key list grows in
first-occurrence order of the names. -/
theorem uniqueOf_keys_aux (vals : List Entry) : ∀ (d : List (Str × Entry)),
    ((vals.foldl (fun d e => dinsert (entryName e) e d) d).map Prod.fst) =
      d.map Prod.fst ++ dedupAux (d.map Prod.fst) (vals.map entryName) := by
  induction vals with
  | nil => intro d; simp [dedupAux]
  | cons e vs ih =>
    intro d
    simp only [List.foldl_cons, List.map_cons]
    rw [ih (dinsert (entryName e) e d), dinsert_keys]
    by_cases hm : entryName e ∈ d.map Prod.fst
    · simp [hm, dedupAux]
    · simp only [if_neg hm]
      rw [dedupAux_congr (vs.map entryName) (d.map Prod.fst ++ [entryName e])
        (entryName e :: d.map Prod.fst) (fun a => by simp [or_comm])]
      simp [dedupAux, hm]

theorem oor_none {α : Type} (x : Option α) : oor x none = x := by
  cases x <;> rfl

/-- Folding assignments keyed by entry name: each name resolves to the last
entry bearing it, falling back to the initial dict. -/
theorem uniqueOf_find_aux (vals : List Entry) : ∀ (d : List (Str × Entry)) (n : Str),
    dfind n (vals.foldl (fun d e => dinsert (entryName e) e d) d) =
      oor ((vals.filter (fun e => entryName e == n)).getLast?) (dfind n d) := by
  induction vals with
  | nil => intro d n; simp [oor]
  | cons e vs ih =>
    intro d n
    simp only [List.foldl_cons]
    rw [ih (dinsert (entryName e) e d) n, dfind_dinsert]
    by_cases hp : entryName e = n
    · simp only [List.filter_cons, hp, beq_self_eq_true, if_pos, if_pos hp.symm]
      cases hfl : vs.filter (fun x => entryName x == n) with
      | nil => simp [oor]
      | cons a l =>
        obtain ⟨y, hy⟩ := Option.isSome_iff_exists.mp
          (List.getLast?_isSome.mpr (List.cons_ne_nil a l))
        rw [List.getLast?_cons_cons, hy]
        rfl
    · have hb : (entryName e == n) = false := beq_false_of_ne hp
      have hn : ¬ n = entryName e := fun hh => hp hh.symm
      simp [List.filter_cons, hb, hn]

/-- C4 (amended): the emitter writes one portal-prototype definition per
unique instance name, in first-seen order of the names, but the entry used
for a name is the last-seen entry bearing it, not the first-seen one. -/
theorem c4_amended (pp : List (Str × Entry)) :
    write_portal_prototypes pp =
      .raw strPortalHdr :: write_prototypes (dvalues (uniqueOf (dvalues pp))) ∧
    (uniqueOf (dvalues pp)).map Prod.fst =
      dedupAux [] ((dvalues pp).map entryName) ∧
    ∀ n, dfind n (uniqueOf (dvalues pp)) =
      ((dvalues pp).filter (fun e => entryName e == n)).getLast? := by
  refine ⟨rfl, ?_, ?_⟩
  · have h := uniqueOf_keys_aux (dvalues pp) []
    simpa [uniqueOf] using h
  · intro n
    have h := uniqueOf_find_aux (dvalues pp) [] n
    simpa [uniqueOf, oor_none, dfind] using h

/-- C4 counterexample: two normalized keys sharing the name `pAx` with distinct
attributes; the emitted definition carries the attributes of the second
(last-seen) entry, not the first-seen one the claim requires. -/
theorem c4_counterexample :
    parse_portals [] c4Blocks = .ok c4Table ∧
    write_portal_prototypes c4Table =
      [.raw strPortalHdr, .defn (strDefEntity ++ c4Name ++ strColonSp) [c4Attr2]] ∧
    c4Attr1 ≠ c4Attr2 :=
  ⟨rfl, rfl, by decide⟩

/-- Indexing inside the taken prefix of a list. -/
theorem getD_take_eq (s : Str) (n p : Nat) (h : p < n) :
    (s.take n).getD p ' ' = s.getD p ' ' := by
  simp [List.getD_eq_getElem?_getD, List.getElem?_take, h]

theorem spaces10_getD (p : Nat) : spaces10.getD p ' ' = ' ' := by
  simp only [spaces10, List.getD_eq_getElem?_getD, List.getElem?_replicate]
  split <;> rfl

/-- Function `lastCommaIdx` returns an in-range position holding a comma. -/
theorem lastCommaIdx_some (s : Str) : ∀ p, lastCommaIdx s = some p →
    p < s.length ∧ s.getD p ' ' = ',' := by
  induction s with
  | nil => intro p h; simp [lastCommaIdx] at h
  | cons c cs ih =>
    intro p h
    simp only [lastCommaIdx] at h
    cases hlc : lastCommaIdx cs with
    | some q =>
      rw [hlc] at h
      obtain rfl : q + 1 = p := by simpa using h
      obtain ⟨h1, h2⟩ := ih q hlc
      exact ⟨by simpa using Nat.succ_lt_succ h1, by simpa using h2⟩
    | none =>
      rw [hlc] at h
      by_cases hc : c = ','
      · simp only [hc, if_pos rfl] at h
        obtain rfl : 0 = p := by simpa using h
        exact ⟨by simp, by simp [hc]⟩
      · simp [hc] at h

/-- Every line produced by the wrap loop from a string that starts with ten
spaces itself starts with ten spaces. -/
theorem wrapAux_prefix10 (fuel : Nat) : ∀ (s : Str), s.take 10 = spaces10 →
    ∀ line ∈ wrapAux fuel s, line.take 10 = spaces10 := by
  induction fuel with
  | zero =>
    intro s h line hl
    simp only [wrapAux, List.mem_singleton] at hl
    subst hl
    exact h
  | succ fuel ih =>
    intro s h line hl
    by_cases hlen : s.length > 90
    · cases hlc : lastCommaIdx (s.take 90) with
      | none =>
        simp only [wrapAux, if_pos hlen, hlc, List.mem_singleton] at hl
        subst hl
        exact h
      | some p =>
        simp only [wrapAux, if_pos hlen, hlc, List.mem_cons] at hl
        rcases hl with rfl | hl
        · obtain ⟨hp1, hp2⟩ := lastCommaIdx_some (s.take 90) p hlc
          have hp10 : 10 ≤ p := by
            by_contra hlt
            push_neg at hlt
            rw [getD_take_eq s 90 p (by omega), ← getD_take_eq s 10 p hlt, h,
              spaces10_getD] at hp2
            exact absurd hp2 (by decide)
          rw [List.take_take, show min 10 (p + 1) = 10 by omega]
          exact h
        · refine ih (spaces10 ++ s.drop (p + 1)) ?_ line hl
          have hsl : spaces10.length = 10 := by simp [spaces10]
          rw [← hsl, List.take_left]
    · simp only [wrapAux, if_neg hlen, List.mem_singleton] at hl
      subst hl
      exact h

/-- Every continuation line of the wrapped exits text starts with ten spaces. -/
theorem wrap_tail_prefix10 (s : Str) :
    ∀ line ∈ (wrap s).tail, line.take 10 = spaces10 := by
  intro line hl
  by_cases hlen : s.length > 90
  · cases hlc : lastCommaIdx (s.take 90) with
    | none => simp [wrap, wrapAux, if_pos hlen, hlc] at hl
    | some p =>
      simp only [wrap, wrapAux, if_pos hlen, hlc, List.tail_cons] at hl
      refine wrapAux_prefix10 _ (spaces10 ++ s.drop (p + 1)) ?_ line hl
      have hsl : spaces10.length = 10 := by simp [spaces10]
      rw [← hsl, List.take_left]
  · simp [wrap, wrapAux, if_neg hlen] at hl

/-- C5: the formatted exits line has the `exits = [portal -> 'dir to dest, ...]`
shape; when it exceeds 90 characters it is wrapped at the last comma before
column 90 and every continuation line is prefixed with exactly ten spaces;
when no comma occurs before column 90 it is emitted unwrapped. -/
theorem c5_format_exits (exits : List (Str × Str × Str)) :
    format_exits exits = joinSep newline (wrap (exitsLine exits)) ∧
    exitsLine exits = strExitsOpen ++ joinSep commaSp (exits.map fmtExit) ++ [']'] ∧
    ((exitsLine exits).length ≤ 90 → format_exits exits = exitsLine exits) ∧
    ((exitsLine exits).length > 90 →
      lastCommaIdx ((exitsLine exits).take 90) = none →
      format_exits exits = exitsLine exits) ∧
    (∀ p, (exitsLine exits).length > 90 →
      lastCommaIdx ((exitsLine exits).take 90) = some p →
      (wrap (exitsLine exits)).headD [] = (exitsLine exits).take (p + 1)) ∧
    (∀ line ∈ (wrap (exitsLine exits)).tail, line.take 10 = spaces10) := by
  refine ⟨rfl, rfl, ?_, ?_, ?_, wrap_tail_prefix10 (exitsLine exits)⟩
  · intro h
    simp [format_exits, wrap, wrapAux, show ¬(exitsLine exits).length > 90 by omega,
      joinSep]
  · intro h hlc
    simp [format_exits, wrap, wrapAux, if_pos h, hlc, joinSep]
  · intro p h hlc
    simp [wrap, wrapAux, if_pos h, hlc]

theorem c5_witness :
    (wrap (exitsLine c5Exits)).headD [] = (exitsLine c5Exits).take 87 :=
  (c5_format_exits c5Exits).2.2.2.2.1 86 (by decide) rfl

/-- A chunk produced by `write_location` is a location-instance definition. -/
theorem write_location_isLocDef (l : Layout) (g : Grid) (letter : Char)
    (i j : Nat) (ch : Chunk) (h : write_location l g letter i j = .ok ch) :
    isLocDef ch = true := by
  unfold write_location at h
  cases h1 : get_exits l g letter i j with
  | error e => simp only [h1] at h; exact Except.noConfusion h
  | ok exits =>
    simp only [h1] at h
    cases h2 : location_label l letter (Int.ofNat i) (Int.ofNat j) with
    | error e => simp only [h2] at h; exact Except.noConfusion h
    | ok label =>
      simp only [h2] at h
      cases h3 : dfind [letter] l.location_prototypes with
      | none => simp only [h3] at h; exact Except.noConfusion h
      | some e =>
        simp only [h3, Except.ok.injEq] at h
        subst h
        simp only [isLocDef]
        rw [ List.isPrefixOf_iff_prefix]
        simp only [List.append_assoc]
        exact List.prefix_append _ _

/-- An entity-prototype definition is never counted as a location instance. -/
theorem countLocDefs_proto (e : Entry) : countLocDefs (write_prototypes [e]) = 0 := by
  match e with
  | [] => rfl
  | [n] => rfl
  | n :: p :: attrs =>
    simp only [write_prototypes, List.map_cons, List.map_nil, countLocDefs,
      List.countP_cons, List.countP_nil, isLocDef]
    have hE : strDefEntity = ['d', 'e', 'f', ' ', 'e', 'n', 't', 'i', 't', 'y', ' '] := rfl
    have hL : strDefLocation =
      ['d', 'e', 'f', ' ', 'l', 'o', 'c', 'a', 't', 'i', 'o', 'n', ' '] := rfl
    simp only [hE, hL]
    simp +decide [List.isPrefixOf]

/-- On success, each cell of a group yields exactly one instance definition. -/
theorem writeLocCells_count (l : Layout) (g : Grid) (letter : Char) :
    ∀ (ijs : List (Nat × Nat)), (writeLocCells l g letter ijs).2 = none →
    countLocDefs (writeLocCells l g letter ijs).1 = ijs.length := by
  intro ijs
  induction ijs with
  | nil => intro _; rfl
  | cons ij ijs ih =>
    intro h
    cases hw : write_location l g letter ij.1 ij.2 with
    | error e => simp [writeLocCells, hw] at h
    | ok ch =>
      have hl := write_location_isLocDef l g letter ij.1 ij.2 ch hw
      simp only [writeLocCells, hw] at h ⊢
      simp [countLocDefs, List.countP_cons, hl]
      have := ih h
      simp [countLocDefs] at this
      omega

/-- On success, the emitted location-instance count is the sum of the group
sizes. -/
theorem writeLocGroups_count (l : Layout) (g : Grid) :
    ∀ (gs : List (Char × List (Nat × Nat))), (writeLocGroups l g gs).2 = none →
    countLocDefs (writeLocGroups l g gs).1 = (gs.map (fun p => p.2.length)).sum := by
  intro gs
  induction gs with
  | nil => intro _; rfl
  | cons grp gs ih =>
    obtain ⟨letter, ijs⟩ := grp
    intro h
    cases hf : dfind [letter] l.location_prototypes with
    | none => simp [writeLocGroups, hf] at h
    | some e =>
      cases hr : (writeLocCells l g letter ijs).2 with
      | some err => simp [writeLocGroups, hf, hr] at h
      | none =>
        simp only [writeLocGroups, hf, hr] at h ⊢
        have h1 := writeLocCells_count l g letter ijs hr
        have h2 := ih h
        have h3 := countLocDefs_proto e
        have hz : (if false = true then (1 : Nat) else 0) = 0 := rfl
        simp only [countLocDefs, List.countP_cons, List.countP_append,
          List.map_cons, List.sum_cons, isLocDef, hz] at h1 h2 h3 ⊢
        omega

/-- Appending one cell to its group grows the total size by one. -/
theorem sum_gappend {α β : Type} [DecidableEq α] (k : α) (v : β)
    (d : List (α × List β)) :
    ((gappend k v d).map (fun p => p.2.length)).sum =
      ((d.map (fun p => p.2.length)).sum) + 1 := by
  induction d with
  | nil => simp [gappend]
  | cons p rest ih =>
    obtain ⟨pk, pvs⟩ := p
    by_cases h : k = pk <;> simp [gappend, h, ih] <;> omega

/-- Grouping preserves the total number of cells. -/
theorem foldl_gappend_sum {α β : Type} [DecidableEq α] :
    ∀ (cs : List (α × β)) (d : List (α × List β)),
    (((cs.foldl (fun d c => gappend c.1 c.2 d) d)).map (fun p => p.2.length)).sum =
      (d.map (fun p => p.2.length)).sum + cs.length := by
  intro cs
  induction cs with
  | nil => intro d; simp
  | cons c cs ih =>
    intro d
    simp only [List.foldl_cons, List.length_cons]
    rw [ih, sum_gappend]
    omega

/-- C6: when emission succeeds, every occupied cell (letter neither blank nor
`.`) yields exactly one location-instance definition, and the total emitted
instance count equals the number of occupied cells. -/
theorem c6_instance_count (l : Layout) (g : Grid) (hg : l.grid = some g)
    (hok : (write_locations l).2 = none) :
    countLocDefs (write_locations l).1 = (occupiedCells g).length := by
  unfold write_locations at hok ⊢
  rw [hg] at hok ⊢
  rw [writeLocGroups_count l g (buildGroups g) hok]
  unfold buildGroups
  rw [foldl_gappend_sum]
  simp

theorem c6_witness :
    countLocDefs (write_locations c6Layout).1 = (occupiedCells c6Grid).length :=
  c6_instance_count c6Layout c6Grid rfl rfl

/-- One resolver iteration that returns agrees with the claim's description of
that direction: present iff the connector is non-blank, with the portal looked
up under the sorted letter pair and the destination label at `(i+dx, j+dy)`. -/
theorem exitFor_spec (l : Layout) (g : Grid) (letter : Char) (i j : Nat)
    (d : Int × Int × Str) (hd : d.1 ≠ 0 ∨ d.2.1 ≠ 0) (r : Option (Str × Str × Str))
    (h : exitFor l g letter i j d = .ok r) : r = exitSpec l g letter i j d := by
  simp only [exitFor] at h
  rw [if_pos hd] at h
  simp only [exitSpec, connectorAt, destLetterAt]
  by_cases hlink :
      charAt g.map_rows (2 + (j : Int) * 2 + d.2.1) (2 + (i : Int) * 2 + d.1) ≠ ' '
  · rw [if_pos hlink] at h
    rw [if_pos hlink]
    cases hll : location_label l
        (charAt g.map_rows (2 + (j : Int) * 2 + d.2.1 * 2) (2 + (i : Int) * 2 + d.1 * 2))
        ((i : Int) + d.1) ((j : Int) + d.2.1) with
    | error e => simp only [hll] at h; exact Except.noConfusion h
    | ok dest =>
      simp only [hll] at h
      cases hpf : dfind (sortChars [letter,
          charAt g.map_rows (2 + (j : Int) * 2 + d.2.1 * 2) (2 + (i : Int) * 2 + d.1 * 2)])
          l.portal_prototypes with
      | none => simp only [hpf] at h; exact Except.noConfusion h
      | some pp =>
        simp only [hpf, Except.ok.injEq] at h
        subst h
        simp only [portalNameAt, destLabelAt, hpf]
        simp only [location_label] at hll
        cases hfd : dfind
            [charAt g.map_rows (2 + (j : Int) * 2 + d.2.1 * 2) (2 + (i : Int) * 2 + d.1 * 2)]
            l.location_prototypes with
        | none => simp only [hfd] at hll; exact Except.noConfusion hll
        | some e2 =>
          simp only [hfd, Except.ok.injEq] at hll
          subst hll
          simp
  · rw [if_neg hlink] at h
    rw [if_neg hlink]
    simpa using h.symm

/-- The resolver loop over any direction list of genuine offsets returns, when
it succeeds, exactly the claimed connections in the order of the list. -/
theorem exitsGo_spec (l : Layout) (g : Grid) (letter : Char) (i j : Nat) :
    ∀ (ds : List (Int × Int × Str)), (∀ d ∈ ds, d.1 ≠ 0 ∨ d.2.1 ≠ 0) →
    ∀ exs, exitsGo l g letter i j ds = .ok exs →
    exs = ds.filterMap (exitSpec l g letter i j) := by
  intro ds
  induction ds with
  | nil =>
    intro _ exs h
    simp only [exitsGo, Except.ok.injEq] at h
    subst h
    rfl
  | cons d ds ih =>
    intro hds exs h
    simp only [exitsGo] at h
    cases hfe : exitFor l g letter i j d with
    | error e => simp only [hfe] at h; exact Except.noConfusion h
    | ok r =>
      simp only [hfe] at h
      have hr := exitFor_spec l g letter i j d (hds d (by simp)) r hfe
      cases r with
      | none =>
        have hrec := ih (fun x hx => hds x (by simp [hx])) exs h
        rw [List.filterMap_cons, ← hr]
        exact hrec
      | some ex =>
        cases hgo : exitsGo l g letter i j ds with
        | error e => simp only [hgo] at h; exact Except.noConfusion h
        | ok exs' =>
          simp only [hgo, Except.ok.injEq] at h
          subst h
          have hrec := ih (fun x hx => hds x (by simp [hx])) exs' hgo
          rw [List.filterMap_cons, ← hr]
          simp [hrec]

/-- C1: a successful `get_exits` returns, in the fixed northwest, west,
southwest, north, south, northeast, east, southeast order restricted to
connected directions, one tuple per non-blank connector at `(x+dx, y+dy)`,
whose portal name is looked up under the sorted letter pair read at
`(x+2dx, y+2dy)` and whose label is built at `(i+dx, j+dy)`. -/
theorem c1_exit_resolution (l : Layout) (g : Grid) (letter : Char) (i j : Nat)
    (exs : List (Str × Str × Str)) (h : get_exits l g letter i j = .ok exs) :
    exs = exit_directions.filterMap (exitSpec l g letter i j) :=
  exitsGo_spec l g letter i j exit_directions (by decide) exs h

theorem c1_witness :
    [(c1PortalName, dirE, c1DestLabel)] =
      exit_directions.filterMap (exitSpec c1Layout c1Grid 'A' 0 0) :=
  c1_exit_resolution c1Layout c1Grid 'A' 0 0 [(c1PortalName, dirE, c1DestLabel)] rfl

/-- The scan's result bounds every per-line column count. -/
theorem scanLines_le (bl : List Str) : ∀ (i acc c : Nat),
    scanLines i acc bl = .ok c → acc ≤ c ∧ ∀ x ∈ bl, (x.length + 1) / 2 ≤ c := by
  induction bl with
  | nil =>
    intro i acc c h
    simp only [scanLines, Except.ok.injEq] at h
    subst h
    exact ⟨le_refl _, by simp⟩
  | cons hd tl ih =>
    intro i acc c h
    simp only [scanLines] at h
    by_cases hc : i % 2 = 0 ∧ hd.length % 2 = 0
    · rw [if_pos hc] at h
      exact Except.noConfusion h
    · rw [if_neg hc] at h
      obtain ⟨h1, h2⟩ := ih (i + 1) (max acc ((hd.length + 1) / 2)) c h
      refine ⟨le_trans (le_max_left _ _) h1, ?_⟩
      intro x hx
      rcases List.mem_cons.mp hx with rfl | hx
      · exact le_trans (le_max_right _ _) h1
      · exact h2 x hx

/-- Shape of the padded buffer built by a successful `parse_map`: four extra
rows around the block, and every row padded to the uniform width. -/
theorem parse_map_shape (block : List Str) (g : Grid)
    (h : parse_map [block] = .ok g) :
    g.map_rows.length = 2 * g.rows + 3 ∧ 2 * g.rows = block.length + 1 ∧
    ∀ r ∈ g.map_rows, r.length = 2 * g.cols + 3 := by
  simp only [parse_map] at h
  cases hsc : scanLines 0 0 block with
  | error e => rw [hsc] at h; exact Except.noConfusion h
  | ok cols =>
    simp only [hsc] at h
    by_cases hev : block.length % 2 = 0
    · rw [if_pos hev] at h
      exact Except.noConfusion h
    · rw [if_neg hev] at h
      simp only [Except.ok.injEq] at h
      subst h
      refine ⟨?_, ?_, ?_⟩
      · simp only [List.length_append, List.length_cons, List.length_nil,
          List.length_map]
        omega
      · simp only []
        omega
      · intro r hr
        simp only [List.mem_append, List.mem_cons, List.not_mem_nil, or_false,
          List.mem_map] at hr
        rcases hr with ((rfl | rfl) | ⟨line, hline, rfl⟩) | (rfl | rfl)
        · simp
        · simp
        · have hb := (scanLines_le block 0 0 cols hsc).2 line hline
          simp only [List.length_append, twoSpaces, ljust, List.length_cons,
            List.length_nil, List.length_replicate]
          omega
        · simp
        · simp

/-- C9: for a grid built by a successful `parse_map`, every connector lookup at
`(x+dx, y+dy)` and destination lookup at `(x+2dx, y+2dy)` of any cell
`(i, j)` with `i < cols`, `j < rows` indexes inside the padded buffer, in both
row and column, for all eight directions. -/
theorem c9_neighbor_lookups_in_bounds (block : List Str) (g : Grid)
    (h : parse_map [block] = .ok g) (i j : Nat) (hi : i < g.cols) (hj : j < g.rows)
    (d : Int × Int × Str) (hd : d ∈ exit_directions) :
    (0 ≤ 2 + (j : Int) * 2 + d.2.1 ∧
      (2 + (j : Int) * 2 + d.2.1).toNat < g.map_rows.length) ∧
    (0 ≤ 2 + (j : Int) * 2 + d.2.1 * 2 ∧
      (2 + (j : Int) * 2 + d.2.1 * 2).toNat < g.map_rows.length) ∧
    ∀ r ∈ g.map_rows,
      (0 ≤ 2 + (i : Int) * 2 + d.1 ∧ (2 + (i : Int) * 2 + d.1).toNat < r.length) ∧
      (0 ≤ 2 + (i : Int) * 2 + d.1 * 2 ∧
        (2 + (i : Int) * 2 + d.1 * 2).toNat < r.length) := by
  obtain ⟨hlen, hrows, hwidth⟩ := parse_map_shape block g h
  have hdx : d.1 = -1 ∨ d.1 = 0 ∨ d.1 = 1 := by
    fin_cases hd <;> simp
  have hdy : d.2.1 = -1 ∨ d.2.1 = 0 ∨ d.2.1 = 1 := by
    fin_cases hd <;> simp
  rw [hlen]
  refine ⟨?_, ?_, ?_⟩
  · rcases hdy with h' | h' | h' <;> rw [h'] <;> omega
  · rcases hdy with h' | h' | h' <;> rw [h'] <;> omega
  · intro r hr
    have hw := hwidth r hr
    rw [hw]
    rcases hdx with h' | h' | h' <;> rw [h'] <;> omega

theorem c9_witness :
    0 ≤ 2 + ((0 : Nat) : Int) * 2 + (-1 : Int) ∧
    (2 + ((0 : Nat) : Int) * 2 + (-1 : Int)).toNat < c9Grid.map_rows.length :=
  (c9_neighbor_lookups_in_bounds c9Block c9Grid rfl 0 0 (by decide) (by decide)
    (-1, -1, dirNW) (by decide)).1
